import Mathlib

/-!
# Cross-thread callback bridge of noble (lib/mac/src/callbacks.h) and the
# guid hash of lib/win/src/winrt_guid.cc

The C++ class `ThreadSafeCallback` is embedded as explicit state passing:

* the free store holding the `arg_func_t` objects made by `new` is a `World`
  (live cells, next fresh address, and the chronological trace of effects);
* pointers are addresses, the null pointer is `Option.none`;
* a step that would dereference a dead or null pointer returns `none`;
* threads are interleaved: a schedule lists the actions of all threads in the order they
  take effect, and a call that waits is a call whose hand-off takes effect later.
-/

namespace Noble

/-! ## Handles of the Node-API (`napi.h`, not part of the sources) -/

/-- Handle of a JavaScript environment (`napi_env`); the null handle is `Option.none`. -/
abbrev napi_env := Nat

/-- Handle of a JavaScript value (`napi_value`); the null handle is `Option.none`. -/
abbrev napi_value := Nat

/-- Value kinds reported by the runtime for a JavaScript value. -/
inductive napi_valuetype
  | napi_undefined
  | napi_null
  | napi_boolean
  | napi_number
  | napi_string
  | napi_symbol
  | napi_object
  | napi_function
  | napi_external
  | napi_bigint
  deriving DecidableEq, Repr

/-- Status codes returned by the thread-safe function primitive. -/
inductive napi_status
  | napi_ok
  | napi_invalid_arg
  | napi_generic_failure
  | napi_queue_full
  | napi_closing
  deriving DecidableEq, Repr

namespace Napi

/-- The wrapper `Napi::Env`: an environment handle that may be null. -/
abbrev Env := Option napi_env

/-- The wrapper `Napi::Value`: the environment it belongs to, its handle
(null when empty) and the kind the runtime reports for it. -/
structure Value where
  env : Env
  value : Option napi_value
  valuetype : napi_valuetype
  deriving DecidableEq, Repr

/-- The wrapper `Napi::Function` is a `Napi::Value` statically typed as a function;
nothing forces the wrapped value to be callable, hence the check in the constructor. -/
abbrev Function := Value

/-- The accessor `Napi::Value::Env()`. -/
def Value.Env (v : Value) : Env := v.env

/-- Modelled from the spec: `Napi::Value::IsFunction` is declared in `napi.h`, which is
not under src/; the spec calls such a value function-like / invocable. -/
def Value.IsFunction (v : Value) : Bool :=
  v.valuetype == napi_valuetype.napi_function

/-- Modelled from the spec: `Napi::Value::IsObject` is declared in `napi.h`, which is
not under src/; the spec calls such a value object-like (a function is an object too). -/
def Value.IsObject (v : Value) : Bool :=
  v.valuetype == napi_valuetype.napi_object || v.IsFunction

/-- The test `jsCallback != nullptr` on a wrapper: its handle is not the null handle. -/
def Value.nonNull (v : Value) : Bool := v.value.isSome

/-- The wrapper `Napi::Function(nullptr, nullptr)` handed to the execution step once
calls into JavaScript are no longer possible. -/
def nullFunction : Function :=
  { env := none, value := none, valuetype := napi_valuetype.napi_undefined }

/-- The persistent reference `Napi::Reference<Napi::Value>`. -/
structure Reference where
  env : Env
  referent : Noble.Napi.Value
  deriving DecidableEq, Repr

/-- The factory `Napi::Persistent(value)`: a reference holding exactly `value`. -/
def Persistent (value : Noble.Napi.Value) : Reference :=
  { env := value.env, referent := value }

/-- The accessor `Napi::Reference::Value()`: the value the reference holds. -/
def Reference.Value (r : Reference) : Noble.Napi.Value := r.referent

/-- The exception `Napi::Error` made by `Napi::Error::New(env, message)`. -/
structure Error where
  env : Env
  message : String
  deriving DecidableEq, Repr

/-- The factory `Napi::Error::New`. -/
def Error.New (env : Env) (message : String) : Error :=
  { env := env, message := message }

end Napi

/-! ## Argument builders and the free store -/

/-- The alias `arg_vector_t = std::vector<napi_value>`. -/
abbrev arg_vector_t := List napi_value

/-- The alias `arg_func_t = std::function<void(napi_env, arg_vector_t &)>`: the by-reference
vector is passed in and the updated vector is returned. -/
abbrev arg_func_t := Napi.Env → arg_vector_t → arg_vector_t

/-- Observable effects, in the order they happen. -/
inductive Event
  | alloc (p : Nat)
  | invoke (p : Nat) (env : Napi.Env) (args : arg_vector_t)
  | release (p : Nat)
  | jsCall (jsCallback : Napi.Function) (receiver : Napi.Value) (args : arg_vector_t)
  deriving DecidableEq, Repr

/-- The free store of `arg_func_t` objects together with the trace of effects. -/
structure World where
  heap : List (Nat × arg_func_t)
  next : Nat
  trace : List Event

/-- The empty store. -/
def World.empty : World := { heap := [], next := 0, trace := [] }

/-- Append one effect to the trace. -/
def World.log (w : World) (e : Event) : World :=
  { w with trace := w.trace ++ [e] }

/-- The expression `new arg_func_t(arg_function)`: a fresh address holding a copy. -/
def World.new (w : World) (arg_function : arg_func_t) : Nat × World :=
  (w.next, { heap := (w.next, arg_function) :: w.heap,
             next := w.next + 1,
             trace := w.trace ++ [Event.alloc w.next] })

/-- Dereference `*argfn`: the object living at the address, if any. -/
def World.deref (w : World) (p : Nat) : Option arg_func_t :=
  w.heap.lookup p

/-- The statement `delete argfn`. -/
def World.delete (w : World) (p : Nat) : World :=
  { w with heap := w.heap.filter (fun c => c.1 != p),
           trace := w.trace ++ [Event.release p] }

/-! ## The thread-safe function primitive -/

/-- Modelled from the spec: `Napi::TypedThreadSafeFunction` is declared in `napi.h`, which is
not under src/. It records what `tsfn_t::New` is given (environment, callback, resource name,
maximum queue size, initial thread count), the items handed off and not yet executed, oldest
first, and whether teardown has been requested. The context argument `&receiver_` is the
address of the owner's member and is kept with the owner. -/
structure tsfn_t where
  env : Napi.Env
  jsCallback : Napi.Function
  resourceName : String
  maxQueueSize : Nat
  initialThreadCount : Nat
  queue : List Nat
  closing : Bool

/-- Modelled from the spec: `tsfn_t::New`, not under src/: a live channel with nothing queued. -/
def tsfn_t.New (env : Napi.Env) (jsCallback : Napi.Function) (resourceName : String)
    (maxQueueSize initialThreadCount : Nat) : tsfn_t :=
  { env := env, jsCallback := jsCallback, resourceName := resourceName,
    maxQueueSize := maxQueueSize, initialThreadCount := initialThreadCount,
    queue := [], closing := false }

/-- Modelled from the spec: `tsfn_t::BlockingCall`, not under src/. The hand-off can succeed
only while teardown has not been requested; when it succeeds the status is `napi_ok` and the
item joins the queue behind everything handed off earlier; when it is rejected nothing is
queued. Which status the primitive gives is not in the sources, so it is the parameter
`answer`: on a live channel the status is `answer`, whatever it is; on a channel being torn
down an `answer` of `napi_ok` becomes `napi_closing`. How long the caller waits for the
status is not modelled. -/
def tsfn_t.BlockingCall (t : tsfn_t) (data : Nat) (answer : napi_status) :
    napi_status × tsfn_t :=
  if t.closing then
    (if answer = napi_status.napi_ok then napi_status.napi_closing else answer, t)
  else if answer = napi_status.napi_ok then
    (napi_status.napi_ok, { t with queue := t.queue ++ [data] })
  else (answer, t)

/-- Modelled from the spec: `tsfn_t::Abort`, not under src/: teardown is requested,
irreversibly. -/
def tsfn_t.Abort (t : tsfn_t) : tsfn_t := { t with closing := true }

/-! ## `class ThreadSafeCallback` -/

/-- The data members of `ThreadSafeCallback`. The member `receiver_` is what the context
pointer `&receiver_` points at; it is `none` once the object has been destroyed. -/
structure ThreadSafeCallback where
  receiver_ : Option Napi.Reference
  tsfn_ : tsfn_t

/-- The static member `ThreadSafeCallback::callJsCallback` (callbacks.h lines 10-23). -/
def ThreadSafeCallback.callJsCallback (env : Napi.Env) (jsCallback : Napi.Function)
    (context : Option Napi.Reference) (argfn : Option Nat) (w : World) : Option World :=
  match argfn with
  | none => some w
  | some p =>
    match w.deref p with
    | none => none
    | some f =>
      let args : arg_vector_t := []
      let args := f env args
      let w := w.log (Event.invoke p env [])
      let w := w.delete p
      if env.isSome && jsCallback.nonNull then
        match context with
        | none => none
        | some receiver => some (w.log (Event.jsCall jsCallback receiver.Value args))
      else some w

/-- The constructor `ThreadSafeCallback::ThreadSafeCallback` (callbacks.h lines 28-41);
a thrown `Napi::Error` is the `Except.error` result. -/
def ThreadSafeCallback.ctor (receiver : Napi.Value) (jsCallback : Napi.Function) :
    Except Napi.Error ThreadSafeCallback :=
  if !(receiver.IsObject || receiver.IsFunction) then
    Except.error (Napi.Error.New jsCallback.Env "Callback receiver must be an object or function")
  else if !jsCallback.IsFunction then
    Except.error (Napi.Error.New jsCallback.Env "Callback must be a function")
  else
    Except.ok
      { receiver_ := some (Napi.Persistent receiver),
        tsfn_ := tsfn_t.New jsCallback.Env jsCallback "ThreadSafeCallback callback" 0 1 }

/-- The destructor `ThreadSafeCallback::~ThreadSafeCallback` (callbacks.h lines 42-45):
the channel is aborted, then the members are destroyed. -/
def ThreadSafeCallback.dtor (self : ThreadSafeCallback) : ThreadSafeCallback :=
  { receiver_ := none, tsfn_ := self.tsfn_.Abort }

/-- The member `ThreadSafeCallback::call` (callbacks.h lines 46-50); `answer` is the
parameter of the absent `BlockingCall`. -/
def ThreadSafeCallback.call (self : ThreadSafeCallback) (arg_function : arg_func_t)
    (answer : napi_status) (w : World) : ThreadSafeCallback × World :=
  let (argfn, w) := w.new arg_function
  let (status, tsfn) := self.tsfn_.BlockingCall argfn answer
  if status ≠ napi_status.napi_ok then
    ({ self with tsfn_ := tsfn }, w.delete argfn)
  else
    ({ self with tsfn_ := tsfn }, w)

/-! ## The consumer side of the channel and schedules of the whole bridge -/

/-- Modelled from the spec: the consumer-side release of a channel that is being torn down,
not under src/. Calls queued but not yet executed are discarded without calling into
JavaScript: every item still queued is handed to the execution step with a null environment
and a null callback, oldest first, which is the case the null test at line 20 of
callbacks.h provides for. -/
def emptyQueue (context : Option Napi.Reference) : List Nat → World → Option World
  | [], w => some w
  | p :: ps, w =>
    match ThreadSafeCallback.callJsCallback none Napi.nullFunction context (some p) w with
    | none => none
    | some w => emptyQueue context ps w

/-- Modelled from the spec: one turn of the consumer thread on the channel, not under src/.
On a live channel the oldest queued item, if any, is taken and given to the execution step
with the environment and callback given to `New` and the context `&receiver_`; on a channel
being torn down the queue is emptied by `emptyQueue`. -/
def ThreadSafeCallback.dispatch (self : ThreadSafeCallback) (w : World) :
    Option (ThreadSafeCallback × World) :=
  if self.tsfn_.closing then
    match emptyQueue self.receiver_ self.tsfn_.queue w with
    | none => none
    | some w => some ({ self with tsfn_ := { self.tsfn_ with queue := [] } }, w)
  else
    match self.tsfn_.queue with
    | [] => some (self, w)
    | p :: rest =>
      match ThreadSafeCallback.callJsCallback self.tsfn_.env self.tsfn_.jsCallback
          self.receiver_ (some p) w with
      | none => none
      | some w => some ({ self with tsfn_ := { self.tsfn_ with queue := rest } }, w)

/-- What the threads around one bridge can do: a producer (identified by a number) submits a
builder through `call` and the primitive gives `answer`, the consumer takes one turn, or the
owner destroys the bridge. -/
inductive Action
  | submit (producer : Nat) (arg_function : arg_func_t) (answer : napi_status)
  | dispatch
  | teardown

/-- One action on the bridge and its store. -/
def step (s : ThreadSafeCallback × World) : Action → Option (ThreadSafeCallback × World)
  | Action.submit _ arg_function answer => some (s.1.call arg_function answer s.2)
  | Action.dispatch => s.1.dispatch s.2
  | Action.teardown => some (s.1.dtor, s.2)

/-- A schedule: the actions of all threads in the order they take effect. -/
def run (s : ThreadSafeCallback × World) : List Action → Option (ThreadSafeCallback × World)
  | [] => some s
  | a :: rest =>
    match step s a with
    | none => none
    | some s => run s rest

/-- The consumer takes turns until `n` turns are done. -/
def drain (n : Nat) : List Action := List.replicate n Action.dispatch

/-- The builders a schedule submits, in submission order, each with its producer. -/
def submissions : List Action → List (Nat × arg_func_t)
  | [] => []
  | Action.submit producer arg_function _ :: rest =>
    (producer, arg_function) :: submissions rest
  | _ :: rest => submissions rest

/-- Schedules in which every submission succeeds: nobody tears the bridge down and the
primitive answers every hand-off with `napi_ok`. -/
def allSucceed : List Action → Bool
  | [] => true
  | Action.teardown :: _ => false
  | Action.submit _ _ answer :: rest => decide (answer = napi_status.napi_ok) && allSucceed rest
  | Action.dispatch :: rest => allSucceed rest

/-! ## Reading a trace -/

/-- One observed callback invocation: the function called, the receiver, the arguments. -/
abbrev Invocation := Napi.Function × Napi.Value × arg_vector_t

/-- The callback invocations of a trace, in order. -/
def jsCalls : List Event → List Invocation
  | [] => []
  | Event.jsCall jsCallback receiver args :: rest => (jsCallback, receiver, args) :: jsCalls rest
  | _ :: rest => jsCalls rest

/-- How many times the builder at address `p` was run. -/
def invocations (p : Nat) : List Event → Nat
  | [] => 0
  | Event.invoke q _ _ :: rest => (if q = p then 1 else 0) + invocations p rest
  | _ :: rest => invocations p rest

/-- How many times the builder at address `p` was released. -/
def releases (p : Nat) : List Event → Nat
  | [] => 0
  | Event.release q :: rest => (if q = p then 1 else 0) + releases p rest
  | _ :: rest => releases p rest

/-- The invocation a live bridge owes one builder: the callback, the bound receiver, and
the vector the builder makes of the live environment and an empty vector. -/
def invocationOf (e : napi_env) (jsCallback : Napi.Function) (receiver : Napi.Reference)
    (f : arg_func_t) : Invocation :=
  (jsCallback, receiver.Value, f (some e) [])

/-! ## Invariants of the bridge -/

/-- The queue and the store agree: queued addresses are distinct, allocated, live and never
released; every other allocated address is dead and was released exactly once; addresses not
yet allocated are dead and were never released. -/
structure Consistent (queue : List Nat) (w : World) : Prop where
  nodup : queue.Nodup
  queued : ∀ p ∈ queue, p < w.next ∧ (w.deref p).isSome = true ∧ releases p w.trace = 0
  settled : ∀ p, p < w.next → p ∉ queue → w.deref p = none ∧ releases p w.trace = 1
  fresh : ∀ p, w.next ≤ p → w.deref p = none ∧ releases p w.trace = 0

/-- The invariant of a bridge built by the constructor: queue and store agree, and the
receiver member is alive as long as teardown has not been requested. It holds for what the
constructor builds (`inv_ctor`) and every action keeps it (`inv_step`, `inv_run`). -/
structure Inv (s : ThreadSafeCallback × World) : Prop where
  consistent : Consistent s.1.tsfn_.queue s.2
  context : s.1.tsfn_.closing = false → s.1.receiver_.isSome = true

/-- The bridge is live: teardown has not been requested, the receiver member holds
`receiver`, and the environment `e` and callback `jsCallback` of the channel are non-null. -/
def Live (s : ThreadSafeCallback × World) (e : napi_env) (jsCallback : Napi.Function)
    (receiver : Napi.Reference) : Prop :=
  s.1.tsfn_.closing = false ∧ s.1.receiver_ = some receiver ∧ s.1.tsfn_.env = some e ∧
    s.1.tsfn_.jsCallback = jsCallback ∧ jsCallback.nonNull = true

/-- The queued addresses hold exactly the builders `fs`, in queue order. -/
def Holds (w : World) (queue : List Nat) (fs : List arg_func_t) : Prop :=
  queue.map w.deref = fs.map some

/-! ## Concrete values on which the definitions are evaluated -/

/-- An object of environment 1. -/
def sampleReceiver : Napi.Value :=
  { env := some 1, value := some 10, valuetype := napi_valuetype.napi_object }

/-- A function of environment 1. -/
def sampleCallback : Napi.Function :=
  { env := some 1, value := some 11, valuetype := napi_valuetype.napi_function }

/-- A number of environment 1: neither an object nor a function. -/
def sampleNumber : Napi.Value :=
  { env := some 1, value := some 12, valuetype := napi_valuetype.napi_number }

/-- A builder that pushes the handle `n` onto the argument vector. -/
def sampleBuilder (n : napi_value) : arg_func_t := fun _ args => args ++ [n]

/-- The bridge the constructor builds from `sampleReceiver` and `sampleCallback`. -/
def sampleBridge : ThreadSafeCallback :=
  { receiver_ := some (Napi.Persistent sampleReceiver),
    tsfn_ := tsfn_t.New (some 1) sampleCallback "ThreadSafeCallback callback" 0 1 }

/-- Two producers, 0 and 1, submit two builders each, all accepted, interleaved with one
consumer turn. -/
def sampleSchedule : List Action :=
  [Action.submit 0 (sampleBuilder 1) napi_status.napi_ok,
   Action.submit 1 (sampleBuilder 2) napi_status.napi_ok, Action.dispatch,
   Action.submit 1 (sampleBuilder 3) napi_status.napi_ok,
   Action.submit 0 (sampleBuilder 4) napi_status.napi_ok]

/-- One producer submits three builders, all accepted, with consumer turns in between. -/
def sampleSingle : List Action :=
  [Action.submit 0 (sampleBuilder 1) napi_status.napi_ok, Action.dispatch, Action.dispatch,
   Action.submit 0 (sampleBuilder 2) napi_status.napi_ok,
   Action.submit 0 (sampleBuilder 3) napi_status.napi_ok, Action.dispatch]

/-! ## `std::hash<winrt::guid>` (winrt_guid.cc) -/

/-- One UTF-16 code unit of a wide string. -/
abbrev wchar_t := Nat

/-- The type `winrt::guid`: a 32-bit, two 16-bit and eight 8-bit fields. -/
structure guid where
  Data1 : Nat
  Data2 : Nat
  Data3 : Nat
  Data4 : List Nat
  deriving DecidableEq, Repr

/-- The character buffers owned by live `winrt::hstring` objects, by address. -/
structure Buffers where
  live : List (Nat × List wchar_t)
  next : Nat

/-- A new `hstring` holding `text`: a fresh buffer, owned by that object. -/
def Buffers.create (m : Buffers) (text : List wchar_t) : Nat × Buffers :=
  (m.next, { live := (m.next, text) :: m.live, next := m.next + 1 })

/-- The destructor of the `hstring` owning the buffer at `a`: the buffer is released. -/
def Buffers.destroy (m : Buffers) (a : Nat) : Buffers :=
  { m with live := m.live.filter (fun c => c.1 != a) }

/-- Read the wide string a `const wchar_t*` points at; only a live buffer can be read. -/
def Buffers.read (m : Buffers) (a : Nat) : Option (List wchar_t) :=
  m.live.lookup a

/-- The member `std::hash<winrt::guid>::operator()` (winrt_guid.cc lines 6-10). The library
functions `winrt::to_hstring` and `std::hash<std::wstring>` are parameters. The first
statement takes `c_str()` of a temporary `hstring`, which is destroyed at the end of that
statement; the second statement builds a `std::wstring` from the pointer and hashes it. -/
def hash_winrt_guid (to_hstring : guid → List wchar_t) (hash_wstring : List wchar_t → Nat)
    (m : Buffers) (k : guid) : Option Nat :=
  let (temporary, m) := m.create (to_hstring k)
  let str := temporary
  let m := m.destroy temporary
  match m.read str with
  | none => none
  | some text => some (hash_wstring text)

/-! ## The free store: what each operation does to cells, addresses and counts -/

theorem deref_log (w : World) (e : Event) (q : Nat) : (w.log e).deref q = w.deref q := rfl

theorem deref_new (w : World) (f : arg_func_t) (q : Nat) :
    (w.new f).2.deref q = if q = w.next then some f else w.deref q := by
  by_cases h : q = w.next
  · subst h
    simp [World.new, World.deref, List.lookup]
  · have hb : (q == w.next) = false := by simpa using h
    simp [World.new, World.deref, List.lookup, hb, h]

theorem lookup_filter_ne {α : Type} (l : List (Nat × α)) (p q : Nat) :
    (l.filter (fun c => c.1 != p)).lookup q = if q = p then none else l.lookup q := by
  induction l with
  | nil => simp [List.lookup]
  | cons c l ih =>
    obtain ⟨k, v⟩ := c
    by_cases hk : k = p
    · subst hk
      by_cases hq : q = k
      · subst hq
        simpa [List.filter] using ih
      · have hb : (q == k) = false := by simpa using hq
        simp [List.filter, List.lookup, hb, hq] at ih ⊢
        exact ih
    · have hkb : (k != p) = true := by simpa using hk
      by_cases hq : q = k
      · subst hq
        simp [List.filter, hkb, List.lookup, hk]
      · have hb : (q == k) = false := by simpa using hq
        simp only [List.filter, hkb, List.lookup, hb]
        exact ih

theorem deref_delete (w : World) (p q : Nat) :
    (w.delete p).deref q = if q = p then none else w.deref q := by
  simp [World.delete, World.deref, lookup_filter_ne]

/-! ## Reading a trace that grows at its end -/

theorem jsCalls_append (t u : List Event) : jsCalls (t ++ u) = jsCalls t ++ jsCalls u := by
  induction t with
  | nil => rfl
  | cons e t ih => cases e <;> simp [jsCalls, ih]

theorem releases_append (p : Nat) (t u : List Event) :
    releases p (t ++ u) = releases p t + releases p u := by
  induction t with
  | nil => simp [releases]
  | cons e t ih => cases e <;> simp [releases, ih, Nat.add_assoc]

theorem invocations_append (p : Nat) (t u : List Event) :
    invocations p (t ++ u) = invocations p t + invocations p u := by
  induction t with
  | nil => simp [invocations]
  | cons e t ih => cases e <;> simp [invocations, ih, Nat.add_assoc]

/-! ## The execution step, case by case -/

/-- The store left by the execution step when the guard lets the callback through. -/
theorem callJsCallback_live (e : napi_env) (jsCallback : Napi.Function)
    (receiver : Napi.Reference) (p : Nat) (f : arg_func_t) (w : World)
    (hcb : jsCallback.nonNull = true) (hp : w.deref p = some f) :
    ThreadSafeCallback.callJsCallback (some e) jsCallback (some receiver) (some p) w =
      some { heap := w.heap.filter (fun c => c.1 != p),
             next := w.next,
             trace := w.trace ++ [Event.invoke p (some e) [], Event.release p,
               Event.jsCall jsCallback receiver.Value (f (some e) [])] } := by
  simp [ThreadSafeCallback.callJsCallback, hp, hcb, World.log, World.delete]

/-- The store left by the execution step when the guard fails. -/
theorem callJsCallback_skip (env : Napi.Env) (jsCallback : Napi.Function)
    (context : Option Napi.Reference) (p : Nat) (f : arg_func_t) (w : World)
    (hnull : (env.isSome && jsCallback.nonNull) = false) (hp : w.deref p = some f) :
    ThreadSafeCallback.callJsCallback env jsCallback context (some p) w =
      some { heap := w.heap.filter (fun c => c.1 != p),
             next := w.next,
             trace := w.trace ++ [Event.invoke p env [], Event.release p] } := by
  simp [ThreadSafeCallback.callJsCallback, hp, hnull, World.log, World.delete]

/-! ## One execution step, seen from the store -/

/-- Whatever the guard decides, the execution step on a live builder returns, leaves the
address dead, releases it once, and touches nothing else. -/
theorem callJsCallback_effect (env : Napi.Env) (jsCallback : Napi.Function)
    (context : Option Napi.Reference) (p : Nat) (f : arg_func_t) (w : World)
    (hp : w.deref p = some f)
    (hctx : (env.isSome && jsCallback.nonNull) = true → context.isSome = true) :
    ∃ w', ThreadSafeCallback.callJsCallback env jsCallback context (some p) w = some w' ∧
      w'.next = w.next ∧
      (∀ q, w'.deref q = if q = p then none else w.deref q) ∧
      (∀ q, releases q w'.trace = releases q w.trace + if q = p then 1 else 0) := by
  by_cases hg : (env.isSome && jsCallback.nonNull) = true
  · obtain ⟨e, rfl⟩ := Option.isSome_iff_exists.mp (by simp at hg; exact hg.1)
    obtain ⟨r, rfl⟩ := Option.isSome_iff_exists.mp (hctx hg)
    have hcb : jsCallback.nonNull = true := by simp at hg; exact hg
    refine ⟨_, callJsCallback_live e jsCallback r p f w hcb hp, rfl, ?_, ?_⟩
    · intro q
      simp [World.deref, lookup_filter_ne]
    · intro q
      by_cases hq : p = q <;> simp [releases_append, releases, hq, eq_comm]
  · have hg' : (env.isSome && jsCallback.nonNull) = false := by simpa using hg
    refine ⟨_, callJsCallback_skip env jsCallback context p f w hg' hp, rfl, ?_, ?_⟩
    · intro q
      simp [World.deref, lookup_filter_ne]
    · intro q
      by_cases hq : p = q <;> simp [releases_append, releases, hq, eq_comm]

/-! ## Queue and store stay in agreement -/

theorem consistent_exec (p : Nat) (q : List Nat) (w w' : World)
    (h : Consistent (p :: q) w) (hnext : w'.next = w.next)
    (hderef : ∀ x, w'.deref x = if x = p then none else w.deref x)
    (hrel : ∀ x, releases x w'.trace = releases x w.trace + if x = p then 1 else 0) :
    Consistent q w' := by
  have hnd := List.nodup_cons.mp h.nodup
  refine ⟨hnd.2, ?_, ?_, ?_⟩
  · intro x hx
    have hxp : x ≠ p := fun hxp => hnd.1 (hxp ▸ hx)
    have hq := h.queued x (List.mem_cons_of_mem _ hx)
    simp [hnext, hderef, hrel, hxp, hq.1, hq.2.1, hq.2.2]
  · intro x hx hxq
    by_cases hxp : x = p
    · subst hxp
      have hq := h.queued x (List.mem_cons_self _ _)
      simp [hderef, hrel, hq.2.2]
    · have hs := h.settled x (hnext ▸ hx) (by simp [hxp, hxq])
      simp [hderef, hrel, hxp, hs.1, hs.2]
  · intro x hx
    have hq := h.queued p (List.mem_cons_self _ _)
    have hxp : x ≠ p := by
      rw [hnext] at hx
      omega
    have hf := h.fresh x (hnext ▸ hx)
    simp [hderef, hrel, hxp, hf.1, hf.2]

theorem releases_new (w : World) (f : arg_func_t) (x : Nat) :
    releases x (w.new f).2.trace = releases x w.trace := by
  simp [World.new, releases_append, releases]

theorem releases_delete (w : World) (p x : Nat) :
    releases x (w.delete p).trace = releases x w.trace + if x = p then 1 else 0 := by
  by_cases hq : p = x <;> simp [World.delete, releases_append, releases, hq, eq_comm]

theorem consistent_submit (q : List Nat) (w : World) (f : arg_func_t) (h : Consistent q w) :
    Consistent (q ++ [w.next]) (w.new f).2 := by
  have hnext : (w.new f).2.next = w.next + 1 := rfl
  refine ⟨?_, ?_, ?_, ?_⟩
  · refine List.Nodup.append h.nodup (List.nodup_singleton _) ?_
    intro x hx hx'
    have := (h.queued x hx).1
    simp at hx'
    omega
  · intro x hx
    rcases List.mem_append.mp hx with hx | hx
    · have hq := h.queued x hx
      have hne : x ≠ w.next := by omega
      refine ⟨by rw [hnext]; omega, ?_, ?_⟩
      · rw [deref_new]; simp [hne, hq.2.1]
      · rw [releases_new]; exact hq.2.2
    · simp at hx
      subst hx
      refine ⟨by rw [hnext]; omega, ?_, ?_⟩
      · rw [deref_new]; simp
      · rw [releases_new]; exact (h.fresh _ (Nat.le_refl _)).2
  · intro x hx hxq
    have hne : x ≠ w.next := fun hxe => hxq (by simp [hxe])
    have hlt : x < w.next := by rw [hnext] at hx; omega
    have hs := h.settled x hlt (fun hm => hxq (List.mem_append_left _ hm))
    rw [deref_new, releases_new]
    simp [hne, hs.1, hs.2]
  · intro x hx
    have hle : w.next ≤ x := by rw [hnext] at hx; omega
    have hne : x ≠ w.next := by rw [hnext] at hx; omega
    have hf := h.fresh x hle
    rw [deref_new, releases_new]
    simp [hne, hf.1, hf.2]

theorem consistent_reject (q : List Nat) (w : World) (f : arg_func_t) (h : Consistent q w) :
    Consistent q ((w.new f).2.delete w.next) := by
  have hnext : ((w.new f).2.delete w.next).next = w.next + 1 := rfl
  refine ⟨h.nodup, ?_, ?_, ?_⟩
  · intro x hx
    have hq := h.queued x hx
    have hne : x ≠ w.next := by omega
    refine ⟨by rw [hnext]; omega, ?_, ?_⟩
    · rw [deref_delete, deref_new]; simp [hne, hq.2.1]
    · rw [releases_delete, releases_new]; simp [hne, hq.2.2]
  · intro x hx hxq
    rw [deref_delete, deref_new, releases_delete, releases_new]
    by_cases hxe : x = w.next
    · subst hxe
      simp [(h.fresh _ (Nat.le_refl _)).2]
    · have hlt : x < w.next := by rw [hnext] at hx; omega
      have hs := h.settled x hlt hxq
      simp [hxe, hs.1, hs.2]
  · intro x hx
    have hle : w.next ≤ x := by rw [hnext] at hx; omega
    have hne : x ≠ w.next := by rw [hnext] at hx; omega
    have hf := h.fresh x hle
    rw [deref_delete, deref_new, releases_delete, releases_new]
    simp [hne, hf.1, hf.2]

/-! ## The execution step on a queued builder -/

theorem exec_skip (env : Napi.Env) (jsCallback : Napi.Function)
    (context : Option Napi.Reference) (p : Nat) (f : arg_func_t) (w : World)
    (hnull : (env.isSome && jsCallback.nonNull) = false) (hp : w.deref p = some f) :
    ∃ w', ThreadSafeCallback.callJsCallback env jsCallback context (some p) w = some w' ∧
      w'.next = w.next ∧
      (∀ q, w'.deref q = if q = p then none else w.deref q) ∧
      (∀ q, releases q w'.trace = releases q w.trace + if q = p then 1 else 0) ∧
      jsCalls w'.trace = jsCalls w.trace := by
  obtain ⟨w', h, h1, h2, h3⟩ :=
    callJsCallback_effect env jsCallback context p f w hp (by simp [hnull])
  refine ⟨w', h, h1, h2, h3, ?_⟩
  rw [callJsCallback_skip env jsCallback context p f w hnull hp] at h
  cases h
  simp [jsCalls_append, jsCalls]

theorem exec_live (e : napi_env) (jsCallback : Napi.Function)
    (receiver : Napi.Reference) (p : Nat) (f : arg_func_t) (w : World)
    (hcb : jsCallback.nonNull = true) (hp : w.deref p = some f) :
    ∃ w', ThreadSafeCallback.callJsCallback (some e) jsCallback (some receiver) (some p) w
        = some w' ∧
      w'.next = w.next ∧
      (∀ q, w'.deref q = if q = p then none else w.deref q) ∧
      (∀ q, releases q w'.trace = releases q w.trace + if q = p then 1 else 0) ∧
      jsCalls w'.trace = jsCalls w.trace ++ [invocationOf e jsCallback receiver f] := by
  obtain ⟨w', h, h1, h2, h3⟩ :=
    callJsCallback_effect (some e) jsCallback (some receiver) p f w hp (by simp)
  refine ⟨w', h, h1, h2, h3, ?_⟩
  rw [callJsCallback_live e jsCallback receiver p f w hcb hp] at h
  cases h
  simp [jsCalls_append, jsCalls, invocationOf]

/-- Emptying the queue of a channel being torn down returns, settles every queued builder
and invokes no callback. -/
theorem emptyQueue_effect (context : Option Napi.Reference) (q : List Nat) (w : World)
    (h : Consistent q w) :
    ∃ w', emptyQueue context q w = some w' ∧ Consistent [] w' ∧
      jsCalls w'.trace = jsCalls w.trace := by
  induction q generalizing w with
  | nil => exact ⟨w, rfl, h, rfl⟩
  | cons p q ih =>
    have hq := h.queued p (List.mem_cons_self _ _)
    obtain ⟨f, hf⟩ := Option.isSome_iff_exists.mp hq.2.1
    obtain ⟨w1, h0, h1, h2, h3, h4⟩ :=
      exec_skip none Napi.nullFunction context p f w (by simp) hf
    obtain ⟨w2, k0, k1, k2⟩ := ih w1 (consistent_exec p q w w1 h h1 h2 h3)
    refine ⟨w2, ?_, k1, by rw [k2, h4]⟩
    simp [emptyQueue, h0, k0]

/-! ## `call`, the consumer turn and whole schedules keep the invariant -/

/-- The two outcomes of a hand-off: accepted on a live channel with status `napi_ok` and the
item queued last, or rejected with another status and the channel unchanged. -/
theorem BlockingCall_cases (t : tsfn_t) (data : Nat) (answer : napi_status) :
    (t.closing = false ∧ answer = napi_status.napi_ok ∧
      t.BlockingCall data answer =
        (napi_status.napi_ok, { t with queue := t.queue ++ [data] })) ∨
    ((t.BlockingCall data answer).1 ≠ napi_status.napi_ok ∧
      (t.BlockingCall data answer).2 = t ∧
      (t.closing = true ∨ answer ≠ napi_status.napi_ok)) := by
  unfold tsfn_t.BlockingCall
  by_cases hc : t.closing = true
  · right
    by_cases ha : answer = napi_status.napi_ok
    · simp [hc, ha]
    · simp [hc, ha]
  · have hc' : t.closing = false := by simpa using hc
    by_cases ha : answer = napi_status.napi_ok
    · left
      simp [hc', ha]
    · right
      simp [hc', ha]

/-- Once teardown has been requested every hand-off is rejected, whatever the answer. -/
theorem BlockingCall_closing (t : tsfn_t) (data : Nat) (answer : napi_status)
    (hc : t.closing = true) :
    (t.BlockingCall data answer).1 ≠ napi_status.napi_ok ∧
      (t.BlockingCall data answer).2 = t := by
  unfold tsfn_t.BlockingCall
  by_cases ha : answer = napi_status.napi_ok
  · simp [hc, ha]
  · simp [hc, ha]

theorem call_accepted (self : ThreadSafeCallback) (f : arg_func_t) (w : World)
    (hc : self.tsfn_.closing = false) :
    self.call f napi_status.napi_ok w =
      ({ self with tsfn_ := { self.tsfn_ with queue := self.tsfn_.queue ++ [w.next] } },
        (w.new f).2) := by
  simp [ThreadSafeCallback.call, tsfn_t.BlockingCall, hc, World.new]

theorem call_rejected (self : ThreadSafeCallback) (f : arg_func_t) (answer : napi_status)
    (w : World) (h : (self.tsfn_.BlockingCall w.next answer).1 ≠ napi_status.napi_ok)
    (ht : (self.tsfn_.BlockingCall w.next answer).2 = self.tsfn_) :
    self.call f answer w = (self, (w.new f).2.delete w.next) := by
  unfold ThreadSafeCallback.call
  simp only [World.new]
  rw [if_pos h, ht]

theorem inv_step (s : ThreadSafeCallback × World) (a : Action) (h : Inv s) :
    ∃ s', step s a = some s' ∧ Inv s' := by
  obtain ⟨self, w⟩ := s
  cases a with
  | submit producer f answer =>
    rcases BlockingCall_cases self.tsfn_ w.next answer with ⟨hc, ha, _⟩ | ⟨hne, ht, _⟩
    · subst ha
      refine ⟨_, congrArg some (call_accepted self f w hc), ?_, h.context⟩
      exact consistent_submit _ w f h.consistent
    · refine ⟨_, congrArg some (call_rejected self f answer w hne ht), ?_, h.context⟩
      exact consistent_reject _ w f h.consistent
  | dispatch =>
    by_cases hc : self.tsfn_.closing = true
    · obtain ⟨w', h0, h1, _⟩ := emptyQueue_effect self.receiver_ _ w h.consistent
      refine ⟨({ self with tsfn_ := { self.tsfn_ with queue := [] } }, w'), ?_, h1,
        h.context⟩
      simp [step, ThreadSafeCallback.dispatch, hc, h0]
    · have hc' : self.tsfn_.closing = false := by simpa using hc
      cases hq : self.tsfn_.queue with
      | nil =>
        refine ⟨(self, w), ?_, h⟩
        simp [step, ThreadSafeCallback.dispatch, hc', hq]
      | cons p rest =>
        have hcons : Consistent (p :: rest) w := hq ▸ h.consistent
        have hp := hcons.queued p (List.mem_cons_self _ _)
        obtain ⟨f, hf⟩ := Option.isSome_iff_exists.mp hp.2.1
        obtain ⟨w', h0, h1, h2, h3⟩ :=
          callJsCallback_effect self.tsfn_.env self.tsfn_.jsCallback self.receiver_ p f w hf
            (fun _ => h.context hc')
        refine ⟨({ self with tsfn_ := { self.tsfn_ with queue := rest } }, w'), ?_,
          consistent_exec p rest w w' hcons h1 h2 h3, h.context⟩
        simp [step, ThreadSafeCallback.dispatch, hc', hq, h0]
  | teardown =>
    refine ⟨(self.dtor, w), rfl, h.consistent, ?_⟩
    intro hc
    simp [ThreadSafeCallback.dtor, tsfn_t.Abort] at hc

theorem inv_run (sched : List Action) (s : ThreadSafeCallback × World) (h : Inv s) :
    ∃ s', run s sched = some s' ∧ Inv s' := by
  induction sched generalizing s with
  | nil => exact ⟨s, rfl, h⟩
  | cons a rest ih =>
    obtain ⟨s1, h1, hinv⟩ := inv_step s a h
    obtain ⟨s2, h2, hinv2⟩ := ih s1 hinv
    exact ⟨s2, by simp [run, h1, h2], hinv2⟩

/-- The store nothing has been allocated in agrees with the empty queue. -/
theorem consistent_empty : Consistent [] World.empty := by
  refine ⟨List.nodup_nil, ?_, ?_, ?_⟩
  · intro p hp
    cases hp
  · intro p hp
    simp [World.empty] at hp
  · intro p _
    simp [World.empty, World.deref, releases, List.lookup]

/-- What the constructor builds satisfies the invariant on any store that agrees with the
empty queue. -/
theorem inv_ctor (receiver : Napi.Value) (jsCallback : Napi.Function)
    (self : ThreadSafeCallback) (w : World)
    (h : ThreadSafeCallback.ctor receiver jsCallback = Except.ok self)
    (hw : Consistent [] w) : Inv (self, w) := by
  unfold ThreadSafeCallback.ctor at h
  split at h
  · cases h
  · split at h
    · cases h
    · cases h
      exact ⟨hw, fun _ => rfl⟩

/-! ## First in, first out -/

theorem run_append (s : ThreadSafeCallback × World) (a b : List Action) :
    run s (a ++ b) = (run s a).bind (fun s' => run s' b) := by
  induction a generalizing s with
  | nil => rfl
  | cons x a ih =>
    cases h : step s x with
    | none => simp [run, h]
    | some s1 => simp [run, h, ih]

theorem submissions_append (a b : List Action) :
    submissions (a ++ b) = submissions a ++ submissions b := by
  induction a with
  | nil => rfl
  | cons x a ih => cases x <;> simp [submissions, ih]

theorem submissions_drain (n : Nat) : submissions (drain n) = [] := by
  induction n with
  | zero => rfl
  | succ n ih => simpa [drain, List.replicate_succ, submissions] using ih

theorem holds_submit (w : World) (q : List Nat) (fs : List arg_func_t) (f : arg_func_t)
    (hc : Consistent q w) (h : Holds w q fs) :
    Holds (w.new f).2 (q ++ [w.next]) (fs ++ [f]) := by
  unfold Holds at h ⊢
  have hq : q.map (w.new f).2.deref = q.map w.deref := by
    apply List.map_congr_left
    intro x hx
    have := (hc.queued x hx).1
    rw [deref_new]
    simp [show x ≠ w.next by omega]
  simp [List.map_append, hq, h, deref_new]

theorem holds_exec (w w' : World) (p : Nat) (q : List Nat) (f : arg_func_t)
    (fs : List arg_func_t) (hnd : (p :: q).Nodup)
    (hderef : ∀ x, w'.deref x = if x = p then none else w.deref x)
    (h : Holds w (p :: q) (f :: fs)) : Holds w' q fs := by
  unfold Holds at h ⊢
  have hq : q.map w'.deref = q.map w.deref := by
    apply List.map_congr_left
    intro x hx
    have hxp : x ≠ p := fun hxp => (List.nodup_cons.mp hnd).1 (hxp ▸ hx)
    simp [hderef, hxp]
  simp only [List.map_cons, List.cons.injEq] at h
  rw [hq, h.2]

/-- One action of a live bridge, an accepted submission or a consumer turn: it returns, the
bridge stays live, and the invocations made so far followed by those owed to the queued
builders grow by exactly what is submitted. -/
theorem fifo_step (s : ThreadSafeCallback × World) (a : Action) (e : napi_env)
    (jsCallback : Napi.Function) (receiver : Napi.Reference) (fs : List arg_func_t)
    (hinv : Inv s) (hlive : Live s e jsCallback receiver)
    (hh : Holds s.2 s.1.tsfn_.queue fs) (ha : allSucceed [a] = true) :
    ∃ s' fs', step s a = some s' ∧ Inv s' ∧ Live s' e jsCallback receiver ∧
      Holds s'.2 s'.1.tsfn_.queue fs' ∧
      jsCalls s'.2.trace ++ fs'.map (invocationOf e jsCallback receiver) =
        jsCalls s.2.trace ++ fs.map (invocationOf e jsCallback receiver) ++
          (submissions [a]).map (fun x => invocationOf e jsCallback receiver x.2) ∧
      s'.1.tsfn_.queue.length =
        (match a with
          | Action.submit _ _ _ => s.1.tsfn_.queue.length + 1
          | _ => s.1.tsfn_.queue.length - 1) := by
  obtain ⟨self, w⟩ := s
  obtain ⟨hc, hr, he, hcb, hnn⟩ := hlive
  simp only at hc hr he hcb hh
  cases a with
  | submit producer f answer =>
    have hok : answer = napi_status.napi_ok := by simpa [allSucceed] using ha
    subst hok
    refine ⟨_, fs ++ [f], congrArg some (call_accepted self f w hc), ?_,
      ⟨hc, hr, he, hcb, hnn⟩, holds_submit w _ fs f hinv.consistent hh, ?_, ?_⟩
    · exact ⟨consistent_submit _ w f hinv.consistent, hinv.context⟩
    · simp [World.new, jsCalls_append, jsCalls, submissions]
    · simp
  | dispatch =>
    cases hq : self.tsfn_.queue with
    | nil =>
      have hfs : fs = [] := by
        unfold Holds at hh
        rw [hq] at hh
        simpa using hh.symm
      refine ⟨(self, w), fs, ?_, hinv, ⟨hc, hr, he, hcb, hnn⟩, hh, ?_, ?_⟩
      · simp [step, ThreadSafeCallback.dispatch, hc, hq]
      · simp [submissions]
      · simp [hq]
    | cons p rest =>
      have hcons : Consistent (p :: rest) w := hq ▸ hinv.consistent
      rw [hq] at hh
      cases fs with
      | nil => simp [Holds] at hh
      | cons f fs =>
        have hf : w.deref p = some f := by
          unfold Holds at hh
          simp only [List.map_cons, List.cons.injEq] at hh
          exact hh.1
        obtain ⟨w', h0, h1, h2, h3, h4⟩ := exec_live e jsCallback receiver p f w hnn hf
        refine ⟨({ self with tsfn_ := { self.tsfn_ with queue := rest } }, w'), fs, ?_,
          ⟨consistent_exec p rest w w' hcons h1 h2 h3, hinv.context⟩,
          ⟨hc, hr, he, hcb, hnn⟩, holds_exec w w' p rest f fs hcons.nodup h2 hh, ?_, ?_⟩
        · simp [step, ThreadSafeCallback.dispatch, hc, hq, he, hcb, hr, h0]
        · simp [h4, submissions]
        · simp [hq]
  | teardown => simp [allSucceed] at ha

/-- A schedule in which every submission succeeds, on a live bridge. -/
theorem fifo_run (sched : List Action) (s : ThreadSafeCallback × World) (e : napi_env)
    (jsCallback : Napi.Function) (receiver : Napi.Reference) (fs : List arg_func_t)
    (hinv : Inv s) (hlive : Live s e jsCallback receiver)
    (hh : Holds s.2 s.1.tsfn_.queue fs) (ha : allSucceed sched = true) :
    ∃ s' fs', run s sched = some s' ∧ Inv s' ∧ Live s' e jsCallback receiver ∧
      Holds s'.2 s'.1.tsfn_.queue fs' ∧
      jsCalls s'.2.trace ++ fs'.map (invocationOf e jsCallback receiver) =
        jsCalls s.2.trace ++ fs.map (invocationOf e jsCallback receiver) ++
          (submissions sched).map (fun x => invocationOf e jsCallback receiver x.2) ∧
      s'.1.tsfn_.queue.length ≤ s.1.tsfn_.queue.length + (submissions sched).length := by
  induction sched generalizing s fs with
  | nil => exact ⟨s, fs, rfl, hinv, hlive, hh, by simp [submissions], by simp⟩
  | cons a rest ih =>
    have ha1 : allSucceed [a] = true := by
      cases a <;> simp [allSucceed] at ha ⊢
      exact ha.1
    have ha2 : allSucceed rest = true := by
      cases a <;> simp [allSucceed] at ha ⊢
      · exact ha.2
      · exact ha
    obtain ⟨s1, fs1, h1, hinv1, hlive1, hh1, htot1, hlen1⟩ :=
      fifo_step s a e jsCallback receiver fs hinv hlive hh ha1
    obtain ⟨s2, fs2, h2, hinv2, hlive2, hh2, htot2, hlen2⟩ :=
      ih s1 fs1 hinv1 hlive1 hh1 ha2
    refine ⟨s2, fs2, by simp [run, h1, h2], hinv2, hlive2, hh2, ?_, ?_⟩
    · rw [htot2, htot1]
      cases a <;> simp [submissions]
    · cases a <;> simp [submissions] at hlen1 ⊢ <;> omega

/-- Consumer turns only: after `n` of them the first `n` queued builders are gone. -/
theorem drain_run (n : Nat) (s : ThreadSafeCallback × World) (e : napi_env)
    (jsCallback : Napi.Function) (receiver : Napi.Reference) (fs : List arg_func_t)
    (hinv : Inv s) (hlive : Live s e jsCallback receiver)
    (hh : Holds s.2 s.1.tsfn_.queue fs) :
    ∃ s' fs', run s (drain n) = some s' ∧ Inv s' ∧ Live s' e jsCallback receiver ∧
      Holds s'.2 s'.1.tsfn_.queue fs' ∧
      jsCalls s'.2.trace ++ fs'.map (invocationOf e jsCallback receiver) =
        jsCalls s.2.trace ++ fs.map (invocationOf e jsCallback receiver) ∧
      s'.1.tsfn_.queue.length = s.1.tsfn_.queue.length - n := by
  induction n generalizing s fs with
  | zero => exact ⟨s, fs, rfl, hinv, hlive, hh, rfl, by simp⟩
  | succ n ih =>
    obtain ⟨s1, fs1, h1, hinv1, hlive1, hh1, htot1, hlen1⟩ :=
      fifo_step s Action.dispatch e jsCallback receiver fs hinv hlive hh rfl
    obtain ⟨s2, fs2, h2, hinv2, hlive2, hh2, htot2, hlen2⟩ :=
      ih s1 fs1 hinv1 hlive1 hh1
    refine ⟨s2, fs2, ?_, hinv2, hlive2, hh2, ?_, ?_⟩
    · simp [drain, List.replicate_succ, run, h1]
      exact h2
    · rw [htot2, htot1]
      simp [submissions]
    · simp only at hlen1
      omega

/-- Any schedule in which every submission succeeds, then enough consumer turns: the run
returns, the queue is empty, and the consumer has made exactly the invocations owed to what
was queued and then submitted, in that order. -/
theorem fifo_drained (sched : List Action) (n : Nat) (s : ThreadSafeCallback × World)
    (e : napi_env) (jsCallback : Napi.Function) (receiver : Napi.Reference)
    (fs : List arg_func_t)
    (hinv : Inv s) (hlive : Live s e jsCallback receiver)
    (hh : Holds s.2 s.1.tsfn_.queue fs) (ha : allSucceed sched = true)
    (hn : s.1.tsfn_.queue.length + (submissions sched).length ≤ n) :
    ∃ s', run s (sched ++ drain n) = some s' ∧ s'.1.tsfn_.queue = [] ∧
      jsCalls s'.2.trace =
        jsCalls s.2.trace ++ fs.map (invocationOf e jsCallback receiver) ++
          (submissions sched).map (fun x => invocationOf e jsCallback receiver x.2) := by
  obtain ⟨s1, fs1, h1, hinv1, hlive1, hh1, htot1, hlen1⟩ :=
    fifo_run sched s e jsCallback receiver fs hinv hlive hh ha
  obtain ⟨s2, fs2, h2, _, _, hh2, htot2, hlen2⟩ :=
    drain_run n s1 e jsCallback receiver fs1 hinv1 hlive1 hh1
  have hq : s2.1.tsfn_.queue = [] := List.length_eq_zero.mp (by omega)
  have hfs : fs2 = [] := by
    unfold Holds at hh2
    rw [hq] at hh2
    simpa using hh2.symm
  refine ⟨s2, by simp [run_append, h1, h2], hq, ?_⟩
  rw [← htot1, ← htot2, hfs]
  simp

/-! ## Builders that are settled are never run again; a closed channel calls nothing -/

theorem callJsCallback_frame (env : Napi.Env) (jsCallback : Napi.Function)
    (context : Option Napi.Reference) (p : Nat) (w w' : World)
    (h : ThreadSafeCallback.callJsCallback env jsCallback context (some p) w = some w') :
    w'.next = w.next ∧
      ∀ q, invocations q w'.trace = invocations q w.trace + if q = p then 1 else 0 := by
  unfold ThreadSafeCallback.callJsCallback at h
  cases hd : w.deref p with
  | none => simp [hd] at h
  | some f =>
    simp only [hd] at h
    split at h
    · cases context with
      | none => simp at h
      | some r =>
        simp only [Option.some.injEq] at h
        subst h
        refine ⟨rfl, fun q => ?_⟩
        by_cases hq : p = q <;>
          simp [World.log, World.delete, invocations_append, invocations, hq, eq_comm]
    · simp only [Option.some.injEq] at h
      subst h
      refine ⟨rfl, fun q => ?_⟩
      by_cases hq : p = q <;>
        simp [World.log, World.delete, invocations_append, invocations, hq, eq_comm]

theorem emptyQueue_frame (context : Option Napi.Reference) (q : List Nat) (w w' : World)
    (h : emptyQueue context q w = some w') :
    w'.next = w.next ∧ ∀ x, x ∉ q → invocations x w'.trace = invocations x w.trace := by
  induction q generalizing w with
  | nil =>
    simp only [emptyQueue, Option.some.injEq] at h
    subst h
    exact ⟨rfl, fun _ _ => rfl⟩
  | cons p q ih =>
    simp only [emptyQueue] at h
    cases h1 : ThreadSafeCallback.callJsCallback none Napi.nullFunction context (some p) w with
    | none => simp [h1] at h
    | some w1 =>
      simp only [h1] at h
      obtain ⟨k1, k2⟩ := callJsCallback_frame _ _ _ _ _ _ h1
      obtain ⟨k3, k4⟩ := ih w1 h
      refine ⟨by rw [k3, k1], fun x hx => ?_⟩
      have hxp : x ≠ p := fun hxp => hx (by simp [hxp])
      have hxq : x ∉ q := fun hxq => hx (List.mem_cons_of_mem _ hxq)
      rw [k4 x hxq, k2 x]
      simp [hxp]

theorem step_settled (s s' : ThreadSafeCallback × World) (a : Action) (p : Nat)
    (h : step s a = some s') (hlt : p < s.2.next) (hq : p ∉ s.1.tsfn_.queue) :
    p < s'.2.next ∧ p ∉ s'.1.tsfn_.queue ∧
      invocations p s'.2.trace = invocations p s.2.trace := by
  obtain ⟨self, w⟩ := s
  simp only at hlt hq
  cases a with
  | submit producer f answer =>
    simp only [step, Option.some.injEq] at h
    rcases BlockingCall_cases self.tsfn_ w.next answer with ⟨hc, ha, _⟩ | ⟨hne, ht, _⟩
    · subst ha
      rw [call_accepted self f w hc] at h
      subst h
      refine ⟨?_, ?_, ?_⟩
      · simp [World.new]; omega
      · simp [hq]; omega
      · simp [World.new, invocations_append, invocations]
    · rw [call_rejected self f answer w hne ht] at h
      subst h
      refine ⟨?_, hq, ?_⟩
      · simp [World.new, World.delete]; omega
      · simp [World.new, World.delete, invocations_append, invocations]
  | dispatch =>
    simp only [step, ThreadSafeCallback.dispatch] at h
    by_cases hc : self.tsfn_.closing = true
    · simp only [hc, if_true] at h
      cases h1 : emptyQueue self.receiver_ self.tsfn_.queue w with
      | none => simp [h1] at h
      | some w1 =>
        simp only [h1, Option.some.injEq] at h
        subst h
        obtain ⟨k1, k2⟩ := emptyQueue_frame _ _ _ _ h1
        exact ⟨by simp [k1, hlt], by simp, k2 p hq⟩
    · have hc' : self.tsfn_.closing = false := by simpa using hc
      cases hqq : self.tsfn_.queue with
      | nil =>
        simp [hc', hqq] at h
        subst h
        exact ⟨hlt, hq, rfl⟩
      | cons p0 rest =>
        simp only [hc', hqq] at h
        cases h1 : ThreadSafeCallback.callJsCallback self.tsfn_.env self.tsfn_.jsCallback
            self.receiver_ (some p0) w with
        | none => simp [h1] at h
        | some w1 =>
          simp [h1] at h
          subst h
          obtain ⟨k1, k2⟩ := callJsCallback_frame _ _ _ _ _ _ h1
          rw [hqq] at hq
          have hp0 : p ≠ p0 := fun hp0 => hq (by simp [hp0])
          refine ⟨by simp [k1, hlt], fun hm => hq (List.mem_cons_of_mem _ hm), ?_⟩
          simp [k2 p, hp0]
  | teardown =>
    simp only [step, Option.some.injEq] at h
    subst h
    exact ⟨hlt, hq, rfl⟩

theorem run_settled (sched : List Action) (s s' : ThreadSafeCallback × World) (p : Nat)
    (h : run s sched = some s') (hlt : p < s.2.next) (hq : p ∉ s.1.tsfn_.queue) :
    p < s'.2.next ∧ p ∉ s'.1.tsfn_.queue ∧
      invocations p s'.2.trace = invocations p s.2.trace := by
  induction sched generalizing s with
  | nil =>
    simp only [run, Option.some.injEq] at h
    subst h
    exact ⟨hlt, hq, rfl⟩
  | cons a rest ih =>
    simp only [run] at h
    cases h1 : step s a with
    | none => simp [h1] at h
    | some s1 =>
      simp only [h1] at h
      obtain ⟨k1, k2, k3⟩ := step_settled s s1 a p h1 hlt hq
      obtain ⟨j1, j2, j3⟩ := ih s1 h k1 k2
      exact ⟨j1, j2, by rw [j3, k3]⟩

/-- Once teardown has been requested every schedule returns and no callback is invoked. -/
theorem closed_run (sched : List Action) (s : ThreadSafeCallback × World) (hinv : Inv s)
    (hc : s.1.tsfn_.closing = true) :
    ∃ s', run s sched = some s' ∧ Inv s' ∧ s'.1.tsfn_.closing = true ∧
      jsCalls s'.2.trace = jsCalls s.2.trace := by
  induction sched generalizing s with
  | nil => exact ⟨s, rfl, hinv, hc, rfl⟩
  | cons a rest ih =>
    have hstep : ∃ s1, step s a = some s1 ∧ Inv s1 ∧ s1.1.tsfn_.closing = true ∧
        jsCalls s1.2.trace = jsCalls s.2.trace := by
      obtain ⟨self, w⟩ := s
      cases a with
      | submit producer f answer =>
        obtain ⟨hne, ht⟩ := BlockingCall_closing self.tsfn_ w.next answer hc
        refine ⟨_, congrArg some (call_rejected self f answer w hne ht),
          ⟨consistent_reject _ w f hinv.consistent, hinv.context⟩, hc, ?_⟩
        simp [World.new, World.delete, jsCalls_append, jsCalls]
      | dispatch =>
        obtain ⟨w', h0, h1, h2⟩ := emptyQueue_effect self.receiver_ _ w hinv.consistent
        refine ⟨({ self with tsfn_ := { self.tsfn_ with queue := [] } }, w'), ?_,
          ⟨h1, hinv.context⟩, hc, h2⟩
        simp only at hc
        simp [step, ThreadSafeCallback.dispatch, hc, h0]
      | teardown =>
        refine ⟨(self.dtor, w), rfl, ⟨hinv.consistent, ?_⟩, rfl, rfl⟩
        intro hc'
        simp [ThreadSafeCallback.dtor, tsfn_t.Abort] at hc'
    obtain ⟨s1, h1, hinv1, hc1, hj1⟩ := hstep
    obtain ⟨s2, h2, hinv2, hc2, hj2⟩ := ih s1 hinv1 hc1
    exact ⟨s2, by simp [run, h1, h2], hinv2, hc2, by rw [hj2, hj1]⟩

/-! ## Bridges built by the constructor, and lists of submissions -/

theorem ctor_eq (receiver : Napi.Value) (jsCallback : Napi.Function)
    (self : ThreadSafeCallback)
    (h : ThreadSafeCallback.ctor receiver jsCallback = Except.ok self) :
    self = { receiver_ := some (Napi.Persistent receiver),
             tsfn_ := tsfn_t.New jsCallback.Env jsCallback "ThreadSafeCallback callback" 0 1 } := by
  unfold ThreadSafeCallback.ctor at h
  split at h
  · cases h
  · split at h
    · cases h
    · cases h
      rfl

theorem live_ctor (receiver : Napi.Value) (jsCallback : Napi.Function)
    (self : ThreadSafeCallback) (w : World) (e : napi_env)
    (h : ThreadSafeCallback.ctor receiver jsCallback = Except.ok self)
    (he : jsCallback.Env = some e) (hnn : jsCallback.nonNull = true) :
    Live (self, w) e jsCallback (Napi.Persistent receiver) := by
  unfold ThreadSafeCallback.ctor at h
  split at h
  · cases h
  · split at h
    · cases h
    · cases h
      exact ⟨rfl, rfl, he, rfl, hnn⟩

theorem length_two_producers {α : Type} (a b : Nat) (hab : a ≠ b) (l : List (Nat × α))
    (h : ∀ x ∈ l, x.1 = a ∨ x.1 = b) :
    l.length = (l.filter (fun x => decide (x.1 = a))).length +
      (l.filter (fun x => decide (x.1 = b))).length := by
  induction l with
  | nil => rfl
  | cons x l ih =>
    have ih' := ih (fun y hy => h y (List.mem_cons_of_mem _ hy))
    rcases h x (List.mem_cons_self _ _) with hx | hx
    · have hxb : x.1 ≠ b := hx ▸ hab
      simp [List.filter, hx, hab] at ih' ⊢
      omega
    · have hxa : x.1 ≠ a := hx ▸ (Ne.symm hab)
      simp [List.filter, hx, Ne.symm hab] at ih' ⊢
      omega

theorem filter_zip_map {α β : Type} (g : α → β) (P : α → Bool) (l : List α) :
    ((l.zip (l.map g)).filter (fun x => P x.1)).map (fun x => x.2) = (l.filter P).map g := by
  induction l with
  | nil => rfl
  | cons x l ih =>
    by_cases hx : P x = true
    · simp [List.filter, hx] at ih ⊢
      exact ih
    · have hx' : P x = false := by simpa using hx
      simp [List.filter, hx'] at ih ⊢
      exact ih

/-! ## The claims -/

/-- C1: when the execution step `callJsCallback` is given a live builder while the environment
and the callback are both non-null, it returns; the builder is run exactly once, on an empty
argument vector; it is released; and then the callback is called exactly once, on the value
held by the context reference (the bound receiver) and exactly the vector the builder made. -/
theorem C1_execution_step_calls_once (e : napi_env) (jsCallback : Napi.Function)
    (receiver : Napi.Reference) (p : Nat) (f : arg_func_t) (w : World)
    (hcb : jsCallback.nonNull = true) (hp : w.deref p = some f) :
    ∃ w', ThreadSafeCallback.callJsCallback (some e) jsCallback (some receiver) (some p) w
        = some w' ∧
      w'.trace = w.trace ++ [Event.invoke p (some e) [], Event.release p,
        Event.jsCall jsCallback receiver.Value (f (some e) [])] ∧
      invocations p w'.trace = invocations p w.trace + 1 ∧
      jsCalls w'.trace = jsCalls w.trace ++ [(jsCallback, receiver.Value, f (some e) [])] := by
  refine ⟨_, callJsCallback_live e jsCallback receiver p f w hcb hp, rfl, ?_, ?_⟩
  · simp [invocations_append, invocations]
  · simp [jsCalls_append, jsCalls]

theorem C1_execution_step_calls_once_witness :
    sampleCallback.nonNull = true ∧
    (World.empty.new (sampleBuilder 42)).2.deref 0 = some (sampleBuilder 42) ∧
    ∃ w', ThreadSafeCallback.callJsCallback (some 1) sampleCallback
        (some (Napi.Persistent sampleReceiver)) (some 0) (World.empty.new (sampleBuilder 42)).2
        = some w' ∧
      w'.trace = (World.empty.new (sampleBuilder 42)).2.trace ++
        [Event.invoke 0 (some 1) [], Event.release 0,
          Event.jsCall sampleCallback (Napi.Persistent sampleReceiver).Value
            (sampleBuilder 42 (some 1) [])] ∧
      invocations 0 w'.trace = invocations 0 (World.empty.new (sampleBuilder 42)).2.trace + 1 ∧
      jsCalls w'.trace = jsCalls (World.empty.new (sampleBuilder 42)).2.trace ++
        [(sampleCallback, (Napi.Persistent sampleReceiver).Value,
          sampleBuilder 42 (some 1) [])] :=
  ⟨rfl, rfl, C1_execution_step_calls_once 1 sampleCallback (Napi.Persistent sampleReceiver) 0
    (sampleBuilder 42) (World.empty.new (sampleBuilder 42)).2 rfl rfl⟩

/-- C3: the constructor throws, and builds no bridge, when the receiver is neither an object
nor a function, and also when the callback is not a function; when the receiver is an object
or a function and the callback is a function it builds a live bridge, with nothing queued,
whose receiver member holds exactly that receiver and whose channel calls exactly that
callback. -/
theorem C3_constructor (receiver : Napi.Value) (jsCallback : Napi.Function) :
    (¬ (receiver.IsObject = true ∨ receiver.IsFunction = true) →
      ThreadSafeCallback.ctor receiver jsCallback = Except.error
        (Napi.Error.New jsCallback.Env "Callback receiver must be an object or function")) ∧
    (jsCallback.IsFunction = false →
      ∃ err, ThreadSafeCallback.ctor receiver jsCallback = Except.error err) ∧
    ((receiver.IsObject = true ∨ receiver.IsFunction = true) → jsCallback.IsFunction = true →
      ∃ self, ThreadSafeCallback.ctor receiver jsCallback = Except.ok self ∧
        self.receiver_.map Napi.Reference.Value = some receiver ∧
        self.tsfn_.jsCallback = jsCallback ∧ self.tsfn_.env = jsCallback.Env ∧
        self.tsfn_.closing = false ∧ self.tsfn_.queue = []) := by
  refine ⟨?_, ?_, ?_⟩
  · intro h
    have h' : (receiver.IsObject || receiver.IsFunction) = false := by
      cases h1 : receiver.IsObject <;> cases h2 : receiver.IsFunction <;> simp_all
    simp [ThreadSafeCallback.ctor, h']
  · intro h
    by_cases hr : (receiver.IsObject || receiver.IsFunction) = true
    · exact ⟨Napi.Error.New jsCallback.Env "Callback must be a function",
        by simp [ThreadSafeCallback.ctor, hr, h]⟩
    · have hr' : (receiver.IsObject || receiver.IsFunction) = false := by simpa using hr
      exact ⟨Napi.Error.New jsCallback.Env "Callback receiver must be an object or function",
        by simp [ThreadSafeCallback.ctor, hr']⟩
  · intro hr hf
    have hr' : (receiver.IsObject || receiver.IsFunction) = true := by
      rcases hr with hr | hr <;> simp [hr]
    refine ⟨{ receiver_ := some (Napi.Persistent receiver),
              tsfn_ := tsfn_t.New jsCallback.Env jsCallback "ThreadSafeCallback callback" 0 1 },
      by simp [ThreadSafeCallback.ctor, hr', hf], ?_, rfl, rfl, rfl, rfl⟩
    simp [Napi.Persistent, Napi.Reference.Value]

theorem C3_constructor_witness :
    ThreadSafeCallback.ctor sampleNumber sampleCallback = Except.error
      (Napi.Error.New sampleCallback.Env "Callback receiver must be an object or function") ∧
    (∃ err, ThreadSafeCallback.ctor sampleReceiver sampleNumber = Except.error err) ∧
    (∃ self, ThreadSafeCallback.ctor sampleReceiver sampleCallback = Except.ok self ∧
        self.receiver_.map Napi.Reference.Value = some sampleReceiver ∧
        self.tsfn_.jsCallback = sampleCallback ∧ self.tsfn_.env = sampleCallback.Env ∧
        self.tsfn_.closing = false ∧ self.tsfn_.queue = []) :=
  ⟨(C3_constructor sampleNumber sampleCallback).1 (by decide),
   (C3_constructor sampleReceiver sampleNumber).2.1 (by decide),
   (C3_constructor sampleReceiver sampleCallback).2.2 (Or.inl (by decide)) (by decide)⟩

/-- C2: on a bridge built by the constructor with a non-null environment and callback, take
any schedule in which one producer submits the builders `bs` through `call`, every submission
succeeding, with consumer turns anywhere before, between and after them. Every step returns;
once the consumer has taken enough further turns the queue is empty and the consumer has made
exactly as many callback invocations as there are builders, the i-th on the bound receiver
and the vector made by the i-th submitted builder. -/
theorem C2_single_producer_in_order (receiver : Napi.Value) (jsCallback : Napi.Function)
    (self : ThreadSafeCallback) (e : napi_env) (w : World) (producer : Nat)
    (sched : List Action) (bs : List arg_func_t) (n : Nat)
    (hctor : ThreadSafeCallback.ctor receiver jsCallback = Except.ok self)
    (he : jsCallback.Env = some e) (hnn : jsCallback.nonNull = true)
    (hw : Consistent [] w) (hsched : allSucceed sched = true)
    (hsub : submissions sched = bs.map (fun f => (producer, f)))
    (hn : bs.length ≤ n) :
    ∃ s', run (self, w) (sched ++ drain n) = some s' ∧
      s'.1.tsfn_.queue = [] ∧
      jsCalls s'.2.trace =
        jsCalls w.trace ++ bs.map (fun f => (jsCallback, receiver, f (some e) [])) ∧
      (jsCalls s'.2.trace).length = (jsCalls w.trace).length + bs.length := by
  have hinv := inv_ctor receiver jsCallback self w hctor hw
  have hlive := live_ctor receiver jsCallback self w e hctor he hnn
  have hq : self.tsfn_.queue = [] := by
    rw [ctor_eq receiver jsCallback self hctor]
    rfl
  obtain ⟨s', h1, h2, h3⟩ := fifo_drained sched n (self, w) e
    jsCallback (Napi.Persistent receiver) [] hinv hlive (by simp [Holds, hq])
    hsched (by simp [hq, hsub]; exact hn)
  have h3' : jsCalls s'.2.trace =
      jsCalls w.trace ++ bs.map (fun f => (jsCallback, receiver, f (some e) [])) := by
    rw [h3, hsub]
    simp [invocationOf, Napi.Persistent, Napi.Reference.Value, Function.comp_def]
  exact ⟨s', h1, h2, h3', by simp [h3']⟩

theorem C2_single_producer_in_order_witness :
    ThreadSafeCallback.ctor sampleReceiver sampleCallback = Except.ok sampleBridge ∧
    sampleCallback.Env = some 1 ∧ sampleCallback.nonNull = true ∧
    Consistent [] World.empty ∧ allSucceed sampleSingle = true ∧
    submissions sampleSingle =
      [sampleBuilder 1, sampleBuilder 2, sampleBuilder 3].map (fun f => (0, f)) ∧
    [sampleBuilder 1, sampleBuilder 2, sampleBuilder 3].length ≤ 3 ∧
    ∃ s', run (sampleBridge, World.empty) (sampleSingle ++ drain 3) = some s' ∧
      s'.1.tsfn_.queue = [] ∧
      jsCalls s'.2.trace =
        jsCalls World.empty.trace ++ [sampleBuilder 1, sampleBuilder 2, sampleBuilder 3].map
          (fun f => (sampleCallback, sampleReceiver, f (some 1) [])) ∧
      (jsCalls s'.2.trace).length = (jsCalls World.empty.trace).length +
        [sampleBuilder 1, sampleBuilder 2, sampleBuilder 3].length :=
  ⟨rfl, rfl, rfl, consistent_empty, rfl, rfl, by decide,
    C2_single_producer_in_order sampleReceiver sampleCallback sampleBridge 1 World.empty 0
      sampleSingle [sampleBuilder 1, sampleBuilder 2, sampleBuilder 3] 3 rfl rfl rfl
      consistent_empty rfl rfl (by decide)⟩

/-- C8: on a bridge built by the constructor with a non-null environment and callback, take
any schedule in which two producers `a` and `b` submit through `call`, every submission
succeeding, and the consumer takes turns, interleaved in any way. Every step returns; once the consumer
has taken enough further turns the queue is empty and it has made exactly one callback
invocation per submission (as many as `a` submitted plus as many as `b` submitted), the k-th
invocation being the one owed to the k-th submission; so the invocations at the places of
one producer's submissions are that producer's builders in that producer's order. -/
theorem C8_two_producers_each_in_order (receiver : Napi.Value) (jsCallback : Napi.Function)
    (self : ThreadSafeCallback) (e : napi_env) (w : World) (a b : Nat)
    (sched : List Action) (n : Nat)
    (hctor : ThreadSafeCallback.ctor receiver jsCallback = Except.ok self)
    (he : jsCallback.Env = some e) (hnn : jsCallback.nonNull = true)
    (hw : Consistent [] w) (hab : a ≠ b) (hsched : allSucceed sched = true)
    (hprod : ∀ x ∈ submissions sched, x.1 = a ∨ x.1 = b)
    (hn : (submissions sched).length ≤ n) :
    ∃ s' calls, run (self, w) (sched ++ drain n) = some s' ∧
      s'.1.tsfn_.queue = [] ∧
      jsCalls s'.2.trace = jsCalls w.trace ++ calls ∧
      calls = (submissions sched).map (fun x => (jsCallback, receiver, x.2 (some e) [])) ∧
      calls.length = ((submissions sched).filter (fun x => decide (x.1 = a))).length +
        ((submissions sched).filter (fun x => decide (x.1 = b))).length ∧
      ∀ t, (((submissions sched).zip calls).filter (fun x => decide (x.1.1 = t))).map
            (fun x => x.2) =
          ((submissions sched).filter (fun x => decide (x.1 = t))).map
            (fun x => (jsCallback, receiver, x.2 (some e) [])) := by
  have hinv := inv_ctor receiver jsCallback self w hctor hw
  have hlive := live_ctor receiver jsCallback self w e hctor he hnn
  have hq : self.tsfn_.queue = [] := by
    rw [ctor_eq receiver jsCallback self hctor]
    rfl
  obtain ⟨s', h1, h2, h3⟩ := fifo_drained sched n (self, w) e
    jsCallback (Napi.Persistent receiver) [] hinv hlive (by simp [Holds, hq])
    hsched (by simp [hq]; exact hn)
  refine ⟨s', (submissions sched).map (fun x => (jsCallback, receiver, x.2 (some e) [])),
    h1, h2, ?_, rfl, ?_, ?_⟩
  · rw [h3]
    simp [invocationOf, Napi.Persistent, Napi.Reference.Value]
  · rw [List.length_map]
    exact length_two_producers a b hab (submissions sched) hprod
  · intro t
    exact filter_zip_map (fun x => (jsCallback, receiver, x.2 (some e) []))
      (fun x => decide (x.1 = t)) (submissions sched)

theorem C8_two_producers_each_in_order_witness :
    ThreadSafeCallback.ctor sampleReceiver sampleCallback = Except.ok sampleBridge ∧
    sampleCallback.Env = some 1 ∧ sampleCallback.nonNull = true ∧
    Consistent [] World.empty ∧ (0 : Nat) ≠ 1 ∧ allSucceed sampleSchedule = true ∧
    (∀ x ∈ submissions sampleSchedule, x.1 = 0 ∨ x.1 = 1) ∧
    (submissions sampleSchedule).length ≤ 4 ∧
    ∃ s' calls, run (sampleBridge, World.empty) (sampleSchedule ++ drain 4) = some s' ∧
      s'.1.tsfn_.queue = [] ∧
      jsCalls s'.2.trace = jsCalls World.empty.trace ++ calls ∧
      calls = (submissions sampleSchedule).map
        (fun x => (sampleCallback, sampleReceiver, x.2 (some 1) [])) ∧
      calls.length = ((submissions sampleSchedule).filter (fun x => decide (x.1 = 0))).length +
        ((submissions sampleSchedule).filter (fun x => decide (x.1 = 1))).length ∧
      ∀ t, (((submissions sampleSchedule).zip calls).filter (fun x => decide (x.1.1 = t))).map
            (fun x => x.2) =
          ((submissions sampleSchedule).filter (fun x => decide (x.1 = t))).map
            (fun x => (sampleCallback, sampleReceiver, x.2 (some 1) [])) :=
  have hprod : ∀ x ∈ submissions sampleSchedule, x.1 = 0 ∨ x.1 = 1 := by
    intro x hx
    simp [sampleSchedule, submissions] at hx
    rcases hx with rfl | rfl | rfl | rfl <;> simp
  ⟨rfl, rfl, rfl, consistent_empty, by decide, rfl, hprod, by decide,
    C8_two_producers_each_in_order sampleReceiver sampleCallback sampleBridge 1 World.empty 0 1
      sampleSchedule 4 rfl rfl rfl consistent_empty (by decide) rfl hprod (by decide)⟩

/-- C4: when the hand-off made by `call` is rejected, with whatever status other than
`napi_ok` (and every such status can be the outcome), `call` returns normally with the bridge
unchanged, so the builder is not queued; the only effects are the allocation of the builder
and its release, so it is not run and no callback is called. In every state that satisfies
the bridge invariant `Inv`, whatever the threads do after a rejected submission its builder is
never run; and once teardown has been requested every hand-off is rejected and no callback
is ever called again. -/
theorem C4_rejected_submission_is_dropped :
    (∀ (self : ThreadSafeCallback) (f : arg_func_t) (answer : napi_status) (w : World),
      (self.tsfn_.BlockingCall w.next answer).1 ≠ napi_status.napi_ok →
      ∃ w', self.call f answer w = (self, w') ∧
        w'.trace = w.trace ++ [Event.alloc w.next, Event.release w.next] ∧
        w'.deref w.next = none) ∧
    (∀ (t : tsfn_t) (data : Nat) (status : napi_status), status ≠ napi_status.napi_ok →
      (t.BlockingCall data status).1 = status) ∧
    (∀ (s : ThreadSafeCallback × World) (producer : Nat) (f : arg_func_t)
        (answer : napi_status) (sched : List Action),
      Inv s → (s.1.tsfn_.BlockingCall s.2.next answer).1 ≠ napi_status.napi_ok →
      ∃ s', run s (Action.submit producer f answer :: sched) = some s' ∧
        invocations s.2.next s'.2.trace = invocations s.2.next s.2.trace) ∧
    (∀ (s : ThreadSafeCallback × World) (producer : Nat) (f : arg_func_t)
        (answer : napi_status) (sched : List Action),
      Inv s → s.1.tsfn_.closing = true →
      (s.1.tsfn_.BlockingCall s.2.next answer).1 ≠ napi_status.napi_ok ∧
      ∃ s', run s (Action.submit producer f answer :: sched) = some s' ∧
        jsCalls s'.2.trace = jsCalls s.2.trace) := by
  have hrej : ∀ (self : ThreadSafeCallback) (f : arg_func_t) (answer : napi_status)
      (w : World), (self.tsfn_.BlockingCall w.next answer).1 ≠ napi_status.napi_ok →
      self.call f answer w = (self, (w.new f).2.delete w.next) := by
    intro self f answer w h
    rcases BlockingCall_cases self.tsfn_ w.next answer with ⟨_, _, hok⟩ | ⟨hne, ht, _⟩
    · rw [hok] at h
      exact absurd rfl h
    · exact call_rejected self f answer w hne ht
  refine ⟨?_, ?_, ?_, ?_⟩
  · intro self f answer w h
    refine ⟨_, hrej self f answer w h, ?_, ?_⟩
    · simp [World.new, World.delete]
    · rw [deref_delete]
      simp
  · intro t data status hs
    unfold tsfn_t.BlockingCall
    by_cases hc : t.closing = true
    · simp [hc, hs]
    · have hc' : t.closing = false := by simpa using hc
      simp [hc', hs]
  · intro s producer f answer sched hinv h
    obtain ⟨self, w⟩ := s
    have h1 : step (self, w) (Action.submit producer f answer) =
        some (self, (w.new f).2.delete w.next) := congrArg some (hrej self f answer w h)
    have hinv1 : Inv (self, (w.new f).2.delete w.next) :=
      ⟨consistent_reject _ w f hinv.consistent, hinv.context⟩
    obtain ⟨s', h2, _⟩ := inv_run sched _ hinv1
    have hq : w.next ∉ self.tsfn_.queue := fun hm => by
      have := (hinv.consistent.queued _ hm).1
      simp only at this
      omega
    obtain ⟨_, _, h4⟩ := run_settled sched _ s' w.next h2
      (by simp [World.new, World.delete]) hq
    refine ⟨s', by simp [run, h1, h2], ?_⟩
    rw [h4]
    simp [World.new, World.delete, invocations_append, invocations]
  · intro s producer f answer sched hinv hc
    obtain ⟨self, w⟩ := s
    obtain ⟨hne, _⟩ := BlockingCall_closing self.tsfn_ w.next answer hc
    refine ⟨hne, ?_⟩
    have h1 : step (self, w) (Action.submit producer f answer) =
        some (self, (w.new f).2.delete w.next) := congrArg some (hrej self f answer w hne)
    have hinv1 : Inv (self, (w.new f).2.delete w.next) :=
      ⟨consistent_reject _ w f hinv.consistent, hinv.context⟩
    obtain ⟨s', h2, _, _, h3⟩ := closed_run sched _ hinv1 hc
    refine ⟨s', by simp [run, h1, h2], ?_⟩
    rw [h3]
    simp [World.new, World.delete, jsCalls_append, jsCalls]

theorem C4_rejected_submission_is_dropped_witness :
    (∃ w', sampleBridge.call (sampleBuilder 42) napi_status.napi_invalid_arg World.empty =
          (sampleBridge, w') ∧
        w'.trace = World.empty.trace ++ [Event.alloc World.empty.next,
          Event.release World.empty.next] ∧
        w'.deref World.empty.next = none) ∧
    (sampleBridge.tsfn_.BlockingCall 0 napi_status.napi_generic_failure).1 =
      napi_status.napi_generic_failure ∧
    (∃ s', run (sampleBridge, World.empty)
          (Action.submit 0 (sampleBuilder 42) napi_status.napi_queue_full ::
            [Action.dispatch]) = some s' ∧
        invocations World.empty.next s'.2.trace =
          invocations World.empty.next World.empty.trace) ∧
    ((sampleBridge.dtor.tsfn_.BlockingCall World.empty.next napi_status.napi_ok).1 ≠
        napi_status.napi_ok ∧
      ∃ s', run (sampleBridge.dtor, World.empty)
          (Action.submit 0 (sampleBuilder 42) napi_status.napi_ok :: [Action.dispatch])
          = some s' ∧
        jsCalls s'.2.trace = jsCalls World.empty.trace) :=
  ⟨C4_rejected_submission_is_dropped.1 sampleBridge (sampleBuilder 42)
      napi_status.napi_invalid_arg World.empty (by decide),
   C4_rejected_submission_is_dropped.2.1 sampleBridge.tsfn_ 0
      napi_status.napi_generic_failure (by decide),
   C4_rejected_submission_is_dropped.2.2.1 (sampleBridge, World.empty) 0 (sampleBuilder 42)
      napi_status.napi_queue_full [Action.dispatch] ⟨consistent_empty, fun _ => rfl⟩
      (by decide),
   C4_rejected_submission_is_dropped.2.2.2 (sampleBridge.dtor, World.empty) 0
      (sampleBuilder 42) napi_status.napi_ok [Action.dispatch]
      ⟨consistent_empty, fun h => by cases h⟩ rfl⟩

/-- C5: when the execution step `callJsCallback` is run on a live builder with a null
environment or a null callback, it returns normally and calls no callback, whatever the
context pointer is; and in every state that satisfies the bridge invariant `Inv` and in which
teardown has not been requested, a submission followed at once by teardown leads to no
callback invocation at all, whatever the primitive answers to the hand-off and whatever the
threads do afterwards. -/
theorem C5_torn_down_step_calls_nothing :
    (∀ (env : Napi.Env) (jsCallback : Napi.Function) (context : Option Napi.Reference)
        (p : Nat) (f : arg_func_t) (w : World),
      env = none ∨ jsCallback.nonNull = false → w.deref p = some f →
      ∃ w', ThreadSafeCallback.callJsCallback env jsCallback context (some p) w = some w' ∧
        w'.trace = w.trace ++ [Event.invoke p env [], Event.release p] ∧
        jsCalls w'.trace = jsCalls w.trace) ∧
    (∀ (s : ThreadSafeCallback × World) (producer : Nat) (f : arg_func_t)
        (answer : napi_status) (sched : List Action),
      Inv s → s.1.tsfn_.closing = false →
      ∃ s', run s (Action.submit producer f answer :: Action.teardown :: sched) = some s' ∧
        jsCalls s'.2.trace = jsCalls s.2.trace) := by
  constructor
  · intro env jsCallback context p f w hnull hp
    have hg : (env.isSome && jsCallback.nonNull) = false := by
      rcases hnull with h | h <;> simp [h]
    refine ⟨_, callJsCallback_skip env jsCallback context p f w hg hp, rfl, ?_⟩
    simp [jsCalls_append, jsCalls]
  · intro s producer f answer sched hinv hc
    obtain ⟨self, w⟩ := s
    rcases BlockingCall_cases self.tsfn_ w.next answer with ⟨_, ha, _⟩ | ⟨hne, ht, _⟩
    · subst ha
      have h1 := call_accepted self f w hc
      have hinv1 : Inv (({ self with
          tsfn_ := { self.tsfn_ with queue := self.tsfn_.queue ++ [w.next] } } :
            ThreadSafeCallback).dtor, (w.new f).2) := by
        refine ⟨consistent_submit _ w f hinv.consistent, ?_⟩
        intro h
        simp [ThreadSafeCallback.dtor, tsfn_t.Abort] at h
      obtain ⟨s', h2, _, _, h3⟩ := closed_run sched _ hinv1 rfl
      refine ⟨s', ?_, ?_⟩
      · simp only [run, step, h1]
        exact h2
      · rw [h3]
        simp [World.new, jsCalls_append, jsCalls]
    · have h1 := call_rejected self f answer w hne ht
      have hinv1 : Inv (self.dtor, (w.new f).2.delete w.next) := by
        refine ⟨consistent_reject _ w f hinv.consistent, ?_⟩
        intro h
        simp [ThreadSafeCallback.dtor, tsfn_t.Abort] at h
      obtain ⟨s', h2, _, _, h3⟩ := closed_run sched _ hinv1 rfl
      refine ⟨s', ?_, ?_⟩
      · simp only [run, step, h1]
        exact h2
      · rw [h3]
        simp [World.new, World.delete, jsCalls_append, jsCalls]

theorem C5_torn_down_step_calls_nothing_witness :
    (∃ w', ThreadSafeCallback.callJsCallback none Napi.nullFunction none (some 0)
          (World.empty.new (sampleBuilder 42)).2 = some w' ∧
        w'.trace = (World.empty.new (sampleBuilder 42)).2.trace ++
          [Event.invoke 0 none [], Event.release 0] ∧
        jsCalls w'.trace = jsCalls (World.empty.new (sampleBuilder 42)).2.trace) ∧
    (∃ s', run (sampleBridge, World.empty)
          (Action.submit 0 (sampleBuilder 42) napi_status.napi_ok :: Action.teardown ::
            [Action.dispatch]) = some s' ∧
        jsCalls s'.2.trace = jsCalls World.empty.trace) :=
  ⟨C5_torn_down_step_calls_nothing.1 none Napi.nullFunction none 0 (sampleBuilder 42)
      (World.empty.new (sampleBuilder 42)).2 (Or.inl rfl) rfl,
   C5_torn_down_step_calls_nothing.2 (sampleBridge, World.empty) 0 (sampleBuilder 42)
      napi_status.napi_ok [Action.dispatch] ⟨consistent_empty, fun _ => rfl⟩ rfl⟩

/-- C6 (the code departs from the claim): the execution step `callJsCallback` runs the builder
before it tests the environment and the callback for null, so a builder that reaches the step
after teardown is run, on the null environment, and only then released. Evaluated on the step
itself and on the schedule submit, teardown, consumer turn. -/
theorem C6_builder_is_run_after_teardown :
    (ThreadSafeCallback.callJsCallback none Napi.nullFunction none (some 0)
        (World.empty.new (sampleBuilder 42)).2).map (fun w => w.trace) =
      some [Event.alloc 0, Event.invoke 0 none [], Event.release 0] ∧
    (run (sampleBridge, World.empty)
        [Action.submit 0 (sampleBuilder 42) napi_status.napi_ok, Action.teardown,
          Action.dispatch]).map
        (fun s => (s.2.trace, invocations 0 s.2.trace)) =
      some ([Event.alloc 0, Event.invoke 0 none [], Event.release 0], 1) := by
  constructor <;> rfl

/-- C9: every builder allocated by `call` is released exactly once. Whatever the primitive
answers, `call` returns; if the hand-off is rejected, with whatever status other than
`napi_ok` (and every such status can be the outcome), `call` itself releases the builder and
does not queue it; if the hand-off is accepted, `call` queues the builder, still live, and
does not release it. The execution step on a live builder returns and releases it exactly
once, whether or not it goes on to call the callback. And along every schedule of
submissions, consumer turns and teardown, from any state that satisfies the bridge invariant
`Inv`, every step returns and afterwards every queued builder is live and unreleased while
every other allocated builder is dead and was released exactly once. -/
theorem C9_builder_released_exactly_once :
    (∀ (self : ThreadSafeCallback) (f : arg_func_t) (answer : napi_status) (w : World),
      ∃ w', self.call f answer w =
          ({ self with tsfn_ := (self.tsfn_.BlockingCall w.next answer).2 }, w') ∧
        ((self.tsfn_.BlockingCall w.next answer).1 ≠ napi_status.napi_ok →
          (self.tsfn_.BlockingCall w.next answer).2.queue = self.tsfn_.queue ∧
          w'.trace = w.trace ++ [Event.alloc w.next, Event.release w.next] ∧
          releases w.next w'.trace = releases w.next w.trace + 1 ∧
          w'.deref w.next = none) ∧
        ((self.tsfn_.BlockingCall w.next answer).1 = napi_status.napi_ok →
          (self.tsfn_.BlockingCall w.next answer).2.queue = self.tsfn_.queue ++ [w.next] ∧
          w'.trace = w.trace ++ [Event.alloc w.next] ∧
          releases w.next w'.trace = releases w.next w.trace ∧
          w'.deref w.next = some f)) ∧
    (∀ (t : tsfn_t) (data : Nat) (status : napi_status), status ≠ napi_status.napi_ok →
      (t.BlockingCall data status).1 = status) ∧
    (∀ (env : Napi.Env) (jsCallback : Napi.Function) (context : Option Napi.Reference)
        (p : Nat) (f : arg_func_t) (w : World),
      w.deref p = some f →
      ((env.isSome && jsCallback.nonNull) = true → context.isSome = true) →
      ∃ w', ThreadSafeCallback.callJsCallback env jsCallback context (some p) w = some w' ∧
        releases p w'.trace = releases p w.trace + 1 ∧ w'.deref p = none) ∧
    (∀ (s : ThreadSafeCallback × World) (sched : List Action), Inv s →
      ∃ s', run s sched = some s' ∧
        (∀ p ∈ s'.1.tsfn_.queue,
          p < s'.2.next ∧ (s'.2.deref p).isSome = true ∧ releases p s'.2.trace = 0) ∧
        (∀ p, p < s'.2.next → p ∉ s'.1.tsfn_.queue →
          s'.2.deref p = none ∧ releases p s'.2.trace = 1)) := by
  refine ⟨?_, ?_, ?_, ?_⟩
  · intro self f answer w
    rcases BlockingCall_cases self.tsfn_ w.next answer with ⟨hc, ha, hok⟩ | ⟨hne, ht, _⟩
    · subst ha
      refine ⟨(w.new f).2, ?_, ?_, ?_⟩
      · rw [call_accepted self f w hc, hok]
      · intro hne
        rw [hok] at hne
        exact absurd rfl hne
      · intro _
        rw [hok]
        refine ⟨rfl, rfl, releases_new w f _, ?_⟩
        rw [deref_new]
        simp
    · refine ⟨(w.new f).2.delete w.next, ?_, ?_, ?_⟩
      · rw [call_rejected self f answer w hne ht, ht]
      · intro _
        refine ⟨by rw [ht], by simp [World.new, World.delete], ?_, ?_⟩
        · rw [releases_delete, releases_new]
          simp
        · rw [deref_delete]
          simp
      · intro hok
        exact absurd hok hne
  · intro t data status hs
    unfold tsfn_t.BlockingCall
    by_cases hc : t.closing = true
    · simp [hc, hs]
    · have hc' : t.closing = false := by simpa using hc
      simp [hc', hs]
  · intro env jsCallback context p f w hp hctx
    obtain ⟨w', h0, _, h2, h3⟩ := callJsCallback_effect env jsCallback context p f w hp hctx
    exact ⟨w', h0, by simp [h3], by simp [h2]⟩
  · intro s sched hinv
    obtain ⟨s', h1, hinv'⟩ := inv_run sched s hinv
    exact ⟨s', h1, hinv'.consistent.queued, hinv'.consistent.settled⟩

theorem C9_builder_released_exactly_once_witness :
    (∃ w', sampleBridge.call (sampleBuilder 42) napi_status.napi_queue_full World.empty =
          ({ sampleBridge with tsfn_ := (sampleBridge.tsfn_.BlockingCall World.empty.next
              napi_status.napi_queue_full).2 }, w') ∧
        ((sampleBridge.tsfn_.BlockingCall World.empty.next napi_status.napi_queue_full).1 ≠
            napi_status.napi_ok →
          (sampleBridge.tsfn_.BlockingCall World.empty.next napi_status.napi_queue_full).2.queue
            = sampleBridge.tsfn_.queue ∧
          w'.trace = World.empty.trace ++
            [Event.alloc World.empty.next, Event.release World.empty.next] ∧
          releases World.empty.next w'.trace = releases World.empty.next World.empty.trace + 1 ∧
          w'.deref World.empty.next = none) ∧
        ((sampleBridge.tsfn_.BlockingCall World.empty.next napi_status.napi_queue_full).1 =
            napi_status.napi_ok →
          (sampleBridge.tsfn_.BlockingCall World.empty.next napi_status.napi_queue_full).2.queue
            = sampleBridge.tsfn_.queue ++ [World.empty.next] ∧
          w'.trace = World.empty.trace ++ [Event.alloc World.empty.next] ∧
          releases World.empty.next w'.trace = releases World.empty.next World.empty.trace ∧
          w'.deref World.empty.next = some (sampleBuilder 42))) ∧
    (sampleBridge.tsfn_.BlockingCall 0 napi_status.napi_invalid_arg).1 =
      napi_status.napi_invalid_arg ∧
    (∃ w', ThreadSafeCallback.callJsCallback (some 1) sampleCallback
          (some (Napi.Persistent sampleReceiver)) (some 0)
          (World.empty.new (sampleBuilder 42)).2 = some w' ∧
        releases 0 w'.trace = releases 0 (World.empty.new (sampleBuilder 42)).2.trace + 1 ∧
        w'.deref 0 = none) ∧
    (∃ s', run (sampleBridge, World.empty) (sampleSchedule ++ [Action.teardown]) = some s' ∧
        (∀ p ∈ s'.1.tsfn_.queue,
          p < s'.2.next ∧ (s'.2.deref p).isSome = true ∧ releases p s'.2.trace = 0) ∧
        (∀ p, p < s'.2.next → p ∉ s'.1.tsfn_.queue →
          s'.2.deref p = none ∧ releases p s'.2.trace = 1)) :=
  ⟨C9_builder_released_exactly_once.1 sampleBridge (sampleBuilder 42)
      napi_status.napi_queue_full World.empty,
   C9_builder_released_exactly_once.2.1 sampleBridge.tsfn_ 0 napi_status.napi_invalid_arg
      (by decide),
   C9_builder_released_exactly_once.2.2.1 (some 1) sampleCallback
      (some (Napi.Persistent sampleReceiver)) 0 (sampleBuilder 42)
      (World.empty.new (sampleBuilder 42)).2 rfl (fun _ => rfl),
   C9_builder_released_exactly_once.2.2.2 (sampleBridge, World.empty)
      (sampleSchedule ++ [Action.teardown]) ⟨consistent_empty, fun _ => rfl⟩⟩

/-- C10 (the code departs from the claim): `operator()` keeps only the `c_str()` pointer of the
temporary `hstring` made by `to_hstring(k)`; the temporary is destroyed at the end of that
statement, so the `std::wstring` of the next statement is built from a released buffer. For
every guid there is no live string to hash: the step that reads the string fails. -/
theorem C10_hash_reads_released_buffer (to_hstring : guid → List wchar_t)
    (hash_wstring : List wchar_t → Nat) (m : Buffers) (k : guid) :
    hash_winrt_guid to_hstring hash_wstring m k = none := by
  have h : ((m.create (to_hstring k)).2.destroy m.next).read m.next = none := by
    simp [Buffers.read, Buffers.destroy, lookup_filter_ne]
  simp only [hash_winrt_guid, Buffers.create] at h ⊢
  rw [h]

end Noble
